import Mathlib

set_option maxRecDepth 10000
set_option maxHeartbeats 1000000

instance {ε α : Type} [DecidableEq ε] [DecidableEq α] : DecidableEq (Except ε α) := fun a b =>
  match a, b with
  | Except.ok x, Except.ok y =>
    if h : x = y then isTrue (by rw [h]) else isFalse (by intro hc; cases hc; exact h rfl)
  | Except.error e, Except.error f =>
    if h : e = f then isTrue (by rw [h]) else isFalse (by intro hc; cases hc; exact h rfl)
  | Except.ok _, Except.error _ => isFalse (by intro hc; cases hc)
  | Except.error _, Except.ok _ => isFalse (by intro hc; cases hc)

namespace mime

/-- Model of Go `mime` token characters: printable ASCII that is not a
tspecial (RFC 1521 / Go `isTokenChar`). -/
def isTokenChar (c : Char) : Bool :=
  c.toNat > 0x20 && c.toNat < 0x7f && !(("()<>@,;:\\\"/[]?=".toList).contains c)

/-- Model of Go `unicode.IsSpace` restricted to the ASCII range. -/
def isSpaceChar (c : Char) : Bool :=
  c = ' ' || c = '\t' || c = '\n' || c = '\x0b' || c = '\x0c' || c = '\r'

/-- Model of `strings.TrimLeftFunc(v, unicode.IsSpace)`. -/
def trimLeft : List Char → List Char
  | [] => []
  | c :: rest => if isSpaceChar c then trimLeft rest else c :: rest

/-- Model of `strings.TrimSpace`: trim whitespace from both ends. -/
def trimSpace (l : List Char) : List Char :=
  (trimLeft (trimLeft l.reverse).reverse)

/-- Model of Go `mime.consumeToken`: split off the longest prefix of token
characters. -/
def consumeToken (l : List Char) : List Char × List Char :=
  (l.takeWhile isTokenChar, l.dropWhile isTokenChar)

/-- The part of the header before the first semicolon (`strings.Cut(v, ";")`,
first component). -/
def takeUntilSemi : List Char → List Char
  | [] => []
  | c :: rest => if c = ';' then [] else c :: takeUntilSemi rest

/-- The part of the header from the first semicolon on (inclusive). -/
def dropFromSemi : List Char → List Char
  | [] => []
  | c :: rest => if c = ';' then c :: rest else dropFromSemi rest

/-- Model of Go `mime.checkMediaTypeDisposition`: the media type must be a
token, or a token `/` token with nothing following. Returns the error
message on failure. -/
def checkMediaTypeDisposition (s : List Char) : Option String :=
  let t := consumeToken s
  if t.1 = [] then some "mime: no media type"
  else
    match t.2 with
    | [] => none
    | c :: rest2 =>
      if c = '/' then
        let t2 := consumeToken rest2
        if t2.1 = [] then some "mime: expected token after slash"
        else if t2.2 = [] then none
        else some "mime: unexpected content after media subtype"
      else some "mime: expected slash after first token"

/-- Model of Go `mime.consumeMediaParam`, simplified to parameter values that
are plain tokens (quoted-string values and RFC 2231 continuations are not
modelled; the code under verification never depends on them). Returns the
rest of the input after one `; attribute=value` parameter, or `none` if no
well-formed parameter starts here. -/
def consumeMediaParam (v : List Char) : Option (List Char) :=
  match trimLeft v with
  | [] => none
  | c :: rest =>
    if c = ';' then
      let rest1 := trimLeft rest
      let p := consumeToken rest1
      if p.1 = [] then none
      else
        match trimLeft p.2 with
        | [] => none
        | c2 :: rest2 =>
          if c2 = '=' then
            let q := consumeToken (trimLeft rest2)
            if q.1 = [] then none else some q.2
          else none
    else none

/-- The parameter-consuming loop of Go `mime.ParseMediaType`, fuelled; a
trailing lone semicolon is tolerated exactly as in the Go code. Returns
`true` when all parameters are well formed. -/
def paramsOk : Nat → List Char → Bool
  | 0, _ => false
  | fuel + 1, v =>
    let v2 := trimLeft v
    if v2 = [] then true
    else
      match consumeMediaParam v2 with
      | some rest => paramsOk fuel rest
      | none => trimSpace v2 = [';']

/-- Run the parameter loop with enough fuel for the input. -/
def parseParams (v : List Char) : Bool := paramsOk (v.length + 1) v

/-- Model of Go `mime.ParseMediaType`: the base type before any `;` is
trimmed, lowercased and validated; the parameters are checked and then
discarded (the code under verification ignores them). Returns the
normalized media type, or the error message. -/
def ParseMediaType (v : String) : Except String String :=
  let cs := v.toList
  let base := takeUntilSemi cs
  let mediatype := trimSpace (base.map Char.toLower)
  match checkMediaTypeDisposition mediatype with
  | some e => Except.error e
  | none =>
    if parseParams (dropFromSemi cs) then Except.ok (String.mk mediatype)
    else Except.error "mime: invalid media parameter"

end mime

namespace distribution

/-- Modelled from the spec: a `Descriptor` describes a piece of content by
digest (an `alg:hex` string), size and media type. The optional platform,
annotation map and alternate URL fields of the spec are not used by any
code under verification and are omitted from the model. -/
structure Descriptor where
  MediaType : String := ""
  Size : Int := 0
  Digest : String := ""
deriving DecidableEq

/-- Association-list model of the Go `mappings` map from media type to
unmarshal function. `RegisterManifestSchema` keeps keys unique, so first
match and Go map lookup agree. -/
def lookupMap {β : Type} : List (String × β) → String → Option β
  | [], _ => none
  | (k, v) :: tl, key => if k = key then some v else lookupMap tl key

/-- Model of `distribution.UnmarshalFunc`: manifest unmarshalling for a given
media type, returning the reconstructed manifest (of schema-specific type
`β`) and its descriptor. -/
def UnmarshalFunc (β : Type) := List Char → Except String (β × Descriptor)

/-- Model of `distribution.UnmarshalManifest`: parse the Content-Type header
(unless empty), look the media type up in the registry, fall back to the
default empty-string registration, and fail if neither exists. -/
def UnmarshalManifest {β : Type} (mappings : List (String × UnmarshalFunc β))
    (ctHeader : String) (p : List Char) : Except String (β × Descriptor) :=
  match (if ctHeader = "" then Except.ok "" else mime.ParseMediaType ctHeader) with
  | Except.error e => Except.error e
  | Except.ok mediaType =>
    match lookupMap mappings mediaType with
    | some f => f p
    | none =>
      match lookupMap mappings "" with
      | some f => f p
      | none =>
        Except.error ("unsupported manifest media type and no default available: " ++ mediaType)

/-- Model of `distribution.RegisterManifestSchema`: add a registration unless
the key is already bound, in which case the registry is unchanged and an
error is reported. -/
def RegisterManifestSchema {β : Type} (mappings : List (String × UnmarshalFunc β))
    (mediaType : String) (u : UnmarshalFunc β) :
    List (String × UnmarshalFunc β) × Option String :=
  match lookupMap mappings mediaType with
  | some _ =>
    (mappings, some ("manifest media type registration would overwrite existing: " ++ mediaType))
  | none => (mappings ++ [(mediaType, u)], none)

end distribution

namespace piddle

/-- Media type of the piddle image index, from `manifest/piddle/manifest.go`. -/
def MediaTypeImageIndex : String := "application/vnd.piddle.image.index.v1+json"

/-- Media type of the piddle image config blob. -/
def MediaTypeImageConfig : String := "application/vnd.piddle.image.manifest.v1+json"

/-- Media type of an uncompressed piddle layer. -/
def MediaTypeLayer : String := "application/vnd.piddle.image.layer.v1.tar"

/-- Modelled from the spec: `manifest.Versioned` (file `manifest/versioned.go`
is not part of the sources given) carries the schema-version marker and the
media-type field, serialized as `schemaVersion` and `mediaType` (the latter
omitted when empty). -/
structure Versioned where
  SchemaVersion : Int := 0
  MediaType : String := ""
deriving DecidableEq

/-- Model of `piddle.Manifest`: the embedded `Versioned` fields, a config
descriptor and the ordered layer descriptors. -/
structure Manifest extends Versioned where
  Config : distribution.Descriptor := {}
  Layers : List distribution.Descriptor := []
deriving DecidableEq

/-- Model of `piddle.SchemaVersion`, the pre-initialized version marker. -/
def SchemaVersion : Versioned := { SchemaVersion := 1, MediaType := MediaTypeImageIndex }

/-- Model of `piddle.Manifest.References`: the config descriptor followed by
the layer descriptors in stored order. -/
def Manifest.References (m : Manifest) : List distribution.Descriptor :=
  [m.Config] ++ m.Layers

/-- Model of `piddle.Manifest.Target`: the config descriptor. -/
def Manifest.Target (m : Manifest) : distribution.Descriptor := m.Config

/-- Model of `piddle.DeserializedManifest`: the structured manifest together
with the canonical byte representation (empty when uninitialized, matching
the Go zero value `nil`). -/
structure DeserializedManifest extends Manifest where
  canonical : List Char := []
deriving DecidableEq

/-- Model of `DeserializedManifest.MarshalJSON`: return the canonical bytes
when present, otherwise fail. -/
def DeserializedManifest.MarshalJSON (m : DeserializedManifest) : Except String (List Char) :=
  if m.canonical.length > 0 then Except.ok m.canonical
  else Except.error "JSON representation not initialized in DeserializedManifest"

/-- Model of `DeserializedManifest.Payload`: the media-type field of the
structured manifest, the canonical bytes, and a nil error. -/
def DeserializedManifest.Payload (m : DeserializedManifest) :
    String × List Char × Option String :=
  (m.MediaType, m.canonical, none)

end piddle

/-- Unmarshal function used in concrete dispatch examples. -/
def exampleFunc : distribution.UnmarshalFunc Unit := fun _ => Except.ok ((), {})

/-- Second unmarshal function, distinguishable from `exampleFunc` by result. -/
def exampleFunc2 : distribution.UnmarshalFunc Unit := fun _ => Except.error "other"

namespace gojson

/-!
Model of the JSON documents handled by `encoding/json` in this code:
objects, arrays, strings, integer numbers, booleans and null. Arrays and
objects are separate mutual types so that structural recursion over nested
documents stays available.
-/
mutual
/-- A JSON value. -/
inductive Json where
  | null : Json
  | bool : Bool → Json
  | num : Int → Json
  | str : String → Json
  | arr : JsonArr → Json
  | obj : JsonObj → Json
/-- A JSON array of values. -/
inductive JsonArr where
  | nil : JsonArr
  | cons : Json → JsonArr → JsonArr
/-- A JSON object: an ordered list of key-value fields. -/
inductive JsonObj where
  | nil : JsonObj
  | cons : String → Json → JsonObj → JsonObj
end

/-- Decimal digit to character. -/
def digitChar : Nat → Char
  | 0 => '0'
  | 1 => '1'
  | 2 => '2'
  | 3 => '3'
  | 4 => '4'
  | 5 => '5'
  | 6 => '6'
  | 7 => '7'
  | 8 => '8'
  | _ => '9'

/-- Decimal digits of `n`, least significant first, with structural fuel. -/
def natDigitsAux : Nat → Nat → List Char
  | 0, _ => []
  | _ + 1, 0 => []
  | fuel + 1, n + 1 => digitChar ((n + 1) % 10) :: natDigitsAux fuel ((n + 1) / 10)

/-- Decimal rendering of a natural number, as `encoding/json` prints it. -/
def serNat (n : Nat) : List Char := if n = 0 then ['0'] else (natDigitsAux n n).reverse

/-- Decimal rendering of an integer. -/
def serInt (n : Int) : List Char := if n < 0 then '-' :: serNat n.natAbs else serNat n.natAbs

/-- String escaping: quote and backslash get a backslash prefix (the escapes
the serializer needs for the round trip; `encoding/json` additionally
escapes control and HTML characters, which this model leaves verbatim). -/
def escChar (c : Char) : List Char := if c = '"' || c = '\\' then ['\\', c] else [c]

/-- Escape every character of a string body. -/
def escString : List Char → List Char
  | [] => []
  | c :: rest => escChar c ++ escString rest

/-- Indentation used by `json.MarshalIndent(v, "", "   ")`: three spaces per
nesting level. -/
def indent (d : Nat) : List Char := List.replicate (3 * d) ' '

mutual
/-- Serialize a JSON document at nesting depth `d` in the style of Go
`json.MarshalIndent` with a three-space indent. -/
def serJson (d : Nat) : Json → List Char
  | Json.null => "null".toList
  | Json.bool true => "true".toList
  | Json.bool false => "false".toList
  | Json.num n => serInt n
  | Json.str s => '"' :: (escString s.toList ++ ['"'])
  | Json.arr JsonArr.nil => ['[', ']']
  | Json.arr (JsonArr.cons j tl) =>
    '[' :: '\n' :: (indent (d + 1) ++ serJson (d + 1) j ++ serItemsTail (d + 1) tl ++
      '\n' :: (indent d ++ [']']))
  | Json.obj JsonObj.nil => ['{', '}']
  | Json.obj (JsonObj.cons k v tl) =>
    '{' :: '\n' :: (indent (d + 1) ++ ('"' :: (escString k.toList ++ '"' :: ':' :: ' ' ::
      serJson (d + 1) v)) ++ serFieldsTail (d + 1) tl ++ '\n' :: (indent d ++ ['}']))
/-- Serialize the remaining array items, each preceded by a comma, newline
and indentation. -/
def serItemsTail (d : Nat) : JsonArr → List Char
  | JsonArr.nil => []
  | JsonArr.cons j tl => ',' :: '\n' :: (indent d ++ serJson d j ++ serItemsTail d tl)
/-- Serialize the remaining object fields, each preceded by a comma, newline
and indentation. -/
def serFieldsTail (d : Nat) : JsonObj → List Char
  | JsonObj.nil => []
  | JsonObj.cons k v tl =>
    ',' :: '\n' :: (indent d ++ ('"' :: (escString k.toList ++ '"' :: ':' :: ' ' ::
      serJson d v)) ++ serFieldsTail d tl)
end

/-- JSON whitespace accepted between tokens. -/
def isJsonWs (c : Char) : Bool := c = ' ' || c = '\n' || c = '\t' || c = '\r'

/-- Drop leading JSON whitespace. -/
def skipWs : List Char → List Char
  | [] => []
  | c :: rest => if isJsonWs c then skipWs rest else c :: rest

/-- Parse the body of a string literal after its opening quote: a backslash
takes the following character verbatim, a bare quote ends the literal. -/
def parseStrChars : List Char → Option (List Char × List Char)
  | [] => none
  | c :: rest =>
    if c = '"' then some ([], rest)
    else if c = '\\' then
      match rest with
      | [] => none
      | c2 :: rest2 =>
        match parseStrChars rest2 with
        | some (s, r) => some (c2 :: s, r)
        | none => none
    else
      match parseStrChars rest with
      | some (s, r) => some (c :: s, r)
      | none => none

/-- Numeric value of a digit character. -/
def digitVal (c : Char) : Nat := c.toNat - '0'.toNat

/-- Split off the longest prefix of decimal digits. -/
def takeDigits : List Char → List Char × List Char
  | [] => ([], [])
  | c :: rest =>
    if c.isDigit then
      let p := takeDigits rest
      (c :: p.1, p.2)
    else ([], c :: rest)

/-- Value of a most-significant-first digit list. -/
def natFromDigits (ds : List Char) : Nat := ds.foldl (fun a c => a * 10 + digitVal c) 0

/-- Parse an optionally signed decimal integer. -/
def parseNumber : List Char → Option (Int × List Char)
  | [] => none
  | c :: rest =>
    if c = '-' then
      if (takeDigits rest).1 = [] then none
      else some (-(natFromDigits (takeDigits rest).1 : Int), (takeDigits rest).2)
    else
      if (takeDigits (c :: rest)).1 = [] then none
      else some ((natFromDigits (takeDigits (c :: rest)).1 : Int), (takeDigits (c :: rest)).2)

mutual
/-- Parse one JSON value (fuelled recursive-descent). -/
def parseVal : Nat → List Char → Option (Json × List Char)
  | 0, _ => none
  | fuel + 1, cs0 =>
    match skipWs cs0 with
    | [] => none
    | c :: rest =>
      if c = '"' then
        match parseStrChars rest with
        | some (s, r) => some (Json.str (String.mk s), r)
        | none => none
      else if c = '[' then
        match parseArrItems fuel rest with
        | some (items, r) => some (Json.arr items, r)
        | none => none
      else if c = '{' then
        match parseObjFields fuel rest with
        | some (fs, r) => some (Json.obj fs, r)
        | none => none
      else if c = 'n' then
        if rest.take 3 = ['u', 'l', 'l'] then some (Json.null, rest.drop 3) else none
      else if c = 't' then
        if rest.take 3 = ['r', 'u', 'e'] then some (Json.bool true, rest.drop 3) else none
      else if c = 'f' then
        if rest.take 4 = ['a', 'l', 's', 'e'] then some (Json.bool false, rest.drop 4) else none
      else
        match parseNumber (c :: rest) with
        | some (n, r) => some (Json.num n, r)
        | none => none
/-- Parse the items of an array after its opening bracket. -/
def parseArrItems : Nat → List Char → Option (JsonArr × List Char)
  | 0, _ => none
  | fuel + 1, cs =>
    match skipWs cs with
    | [] => none
    | c :: rest =>
      if c = ']' then some (JsonArr.nil, rest)
      else
        match parseVal fuel (c :: rest) with
        | some (j, r) =>
          match parseArrRest fuel r with
          | some (tl, r2) => some (JsonArr.cons j tl, r2)
          | none => none
        | none => none
/-- Parse the continuation of an array after one item: a comma and a further
item, or the closing bracket. -/
def parseArrRest : Nat → List Char → Option (JsonArr × List Char)
  | 0, _ => none
  | fuel + 1, cs =>
    match skipWs cs with
    | [] => none
    | c :: rest =>
      if c = ']' then some (JsonArr.nil, rest)
      else if c = ',' then
        match parseVal fuel rest with
        | some (j, r) =>
          match parseArrRest fuel r with
          | some (tl, r2) => some (JsonArr.cons j tl, r2)
          | none => none
        | none => none
      else none
/-- Parse one `"key": value` member of an object. -/
def parseMember : Nat → List Char → Option ((String × Json) × List Char)
  | 0, _ => none
  | fuel + 1, cs =>
    match skipWs cs with
    | [] => none
    | c :: rest =>
      if c = '"' then
        match parseStrChars rest with
        | some (k, r1) =>
          match skipWs r1 with
          | [] => none
          | c2 :: r2 =>
            if c2 = ':' then
              match parseVal fuel r2 with
              | some (v, r3) => some ((String.mk k, v), r3)
              | none => none
            else none
        | none => none
      else none
/-- Parse the fields of an object after its opening brace. -/
def parseObjFields : Nat → List Char → Option (JsonObj × List Char)
  | 0, _ => none
  | fuel + 1, cs =>
    match skipWs cs with
    | [] => none
    | c :: rest =>
      if c = '}' then some (JsonObj.nil, rest)
      else
        match parseMember fuel (c :: rest) with
        | some (kv, r) =>
          match parseObjRest fuel r with
          | some (fs, r2) => some (JsonObj.cons kv.1 kv.2 fs, r2)
          | none => none
        | none => none
/-- Parse the continuation of an object after one member: a comma and a
further member, or the closing brace. -/
def parseObjRest : Nat → List Char → Option (JsonObj × List Char)
  | 0, _ => none
  | fuel + 1, cs =>
    match skipWs cs with
    | [] => none
    | c :: rest =>
      if c = '}' then some (JsonObj.nil, rest)
      else if c = ',' then
        match parseMember fuel rest with
        | some (kv, r) =>
          match parseObjRest fuel r with
          | some (fs, r2) => some (JsonObj.cons kv.1 kv.2 fs, r2)
          | none => none
        | none => none
      else none
end

/-- Parse a complete JSON document: one value, then nothing but trailing
whitespace, as `encoding/json` requires of `json.Unmarshal` input. -/
def jsonParse (cs : List Char) : Option Json :=
  match parseVal (cs.length + 1) cs with
  | some (j, rest) => if skipWs rest = [] then some j else none
  | none => none

/-- Build an object from a key-value list. -/
def objOfList : List (String × Json) → JsonObj
  | [] => JsonObj.nil
  | (k, v) :: tl => JsonObj.cons k v (objOfList tl)

/-- Build an array from a value list. -/
def arrOfList : List Json → JsonArr
  | [] => JsonArr.nil
  | j :: tl => JsonArr.cons j (arrOfList tl)

/-- Field lookup in an object, first match. The serializer never emits a
duplicate key, so this agrees with `encoding/json` on every document the
code produces. -/
def jsonField : JsonObj → String → Option Json
  | JsonObj.nil, _ => none
  | JsonObj.cons k v tl, key => if k = key then some v else jsonField tl key

/-- Decode a JSON value into a Go string: a string gives its value, null
leaves the zero value, anything else is a type error. -/
def decodeString : Json → Except String String
  | Json.str s => Except.ok s
  | Json.null => Except.ok ""
  | _ => Except.error "json: cannot unmarshal value into Go value of type string"

/-- Decode a JSON value into a Go integer field. -/
def decodeInt : Json → Except String Int
  | Json.num n => Except.ok n
  | Json.null => Except.ok 0
  | _ => Except.error "json: cannot unmarshal value into Go value of type int64"

/-- Decode a string-typed struct field: a missing field keeps the zero
value, as `encoding/json` does. -/
def decodeStrField (fs : JsonObj) (key : String) : Except String String :=
  match jsonField fs key with
  | none => Except.ok ""
  | some j => decodeString j

/-- Decode an integer-typed struct field; a missing field keeps zero. -/
def decodeIntField (fs : JsonObj) (key : String) : Except String Int :=
  match jsonField fs key with
  | none => Except.ok 0
  | some j => decodeInt j

end gojson

namespace piddle

/-- Encoding of a `distribution.Descriptor` by `encoding/json`: the fields
`mediaType`, `size`, `digest` in struct order, each tagged `omitempty` and
so omitted at its zero value. -/
def encodeDescriptor (d : distribution.Descriptor) : gojson.Json :=
  gojson.Json.obj (gojson.objOfList (
    (if d.MediaType = "" then [] else [("mediaType", gojson.Json.str d.MediaType)]) ++
    (if d.Size = 0 then [] else [("size", gojson.Json.num d.Size)]) ++
    (if d.Digest = "" then [] else [("digest", gojson.Json.str d.Digest)])))

/-- Encoding of a `piddle.Manifest` by `encoding/json`: the embedded
`Versioned` fields first (`schemaVersion`, then `mediaType` with
`omitempty`), then `config` and `layers`. -/
def encodeManifest (m : Manifest) : gojson.Json :=
  gojson.Json.obj (gojson.objOfList (
    [("schemaVersion", gojson.Json.num m.SchemaVersion)] ++
    (if m.MediaType = "" then [] else [("mediaType", gojson.Json.str m.MediaType)]) ++
    [("config", encodeDescriptor m.Config),
     ("layers", gojson.Json.arr (gojson.arrOfList (m.Layers.map encodeDescriptor)))]))

/-- Model of `json.MarshalIndent(&m, "", "   ")` for a `piddle.Manifest`
(this encoding never fails in Go for this type, so the model is total). -/
def jsonMarshalIndent (m : Manifest) : List Char := gojson.serJson 0 (encodeManifest m)

/-- Decode a JSON value into a `distribution.Descriptor`. -/
def decodeDescriptor : gojson.Json → Except String distribution.Descriptor
  | gojson.Json.null => Except.ok {}
  | gojson.Json.obj fs =>
    match gojson.decodeStrField fs "mediaType" with
    | Except.error e => Except.error e
    | Except.ok mt =>
      match gojson.decodeIntField fs "size" with
      | Except.error e => Except.error e
      | Except.ok sz =>
        match gojson.decodeStrField fs "digest" with
        | Except.error e => Except.error e
        | Except.ok dg => Except.ok { MediaType := mt, Size := sz, Digest := dg }
  | _ => Except.error "json: cannot unmarshal value into Go value of type distribution.Descriptor"

/-- Decode a JSON array into a descriptor list, failing on the first bad
element. -/
def decodeDescriptorArr : gojson.JsonArr → Except String (List distribution.Descriptor)
  | gojson.JsonArr.nil => Except.ok []
  | gojson.JsonArr.cons j tl =>
    match decodeDescriptor j with
    | Except.error e => Except.error e
    | Except.ok d =>
      match decodeDescriptorArr tl with
      | Except.error e => Except.error e
      | Except.ok ds => Except.ok (d :: ds)

/-- Decode the `config` field: missing keeps the zero descriptor. -/
def decodeConfigField (fs : gojson.JsonObj) : Except String distribution.Descriptor :=
  match gojson.jsonField fs "config" with
  | none => Except.ok {}
  | some j => decodeDescriptor j

/-- Decode the `layers` field: missing or null keeps the nil slice. -/
def decodeLayersField (fs : gojson.JsonObj) : Except String (List distribution.Descriptor) :=
  match gojson.jsonField fs "layers" with
  | none => Except.ok []
  | some gojson.Json.null => Except.ok []
  | some (gojson.Json.arr items) => decodeDescriptorArr items
  | some _ =>
    Except.error "json: cannot unmarshal value into Go value of type []distribution.Descriptor"

/-- Decode a JSON value into a `piddle.Manifest` structure. -/
def decodeManifest : gojson.Json → Except String Manifest
  | gojson.Json.obj fs =>
    match gojson.decodeIntField fs "schemaVersion" with
    | Except.error e => Except.error e
    | Except.ok sv =>
      match gojson.decodeStrField fs "mediaType" with
      | Except.error e => Except.error e
      | Except.ok mt =>
        match decodeConfigField fs with
        | Except.error e => Except.error e
        | Except.ok cfg =>
          match decodeLayersField fs with
          | Except.error e => Except.error e
          | Except.ok lys =>
            Except.ok { SchemaVersion := sv, MediaType := mt, Config := cfg, Layers := lys }
  | _ => Except.error "json: cannot unmarshal value into Go value of type piddle.Manifest"

/-- Model of `json.Unmarshal(b, &manifest)` for a `piddle.Manifest`: parse
the document and decode it. -/
def jsonUnmarshal (b : List Char) : Except String Manifest :=
  match gojson.jsonParse b with
  | none => Except.error "invalid JSON document"
  | some j => decodeManifest j

/-- Model of `piddle.FromStruct`: store the structure and its indented JSON
encoding as the canonical bytes. -/
def FromStruct (m : Manifest) : DeserializedManifest × Option String :=
  ({ toManifest := m, canonical := jsonMarshalIndent m }, none)

/-- Model of `DeserializedManifest.UnmarshalJSON`: the receiver's canonical
bytes are set to a copy of the input before decoding; decoding or
media-type validation failure returns the error with the structured fields
untouched; on success the structured fields are replaced too. -/
def DeserializedManifest.UnmarshalJSON (m : DeserializedManifest) (b : List Char) :
    DeserializedManifest × Option String :=
  match jsonUnmarshal b with
  | Except.error e => ({ m with canonical := b }, some e)
  | Except.ok manifest =>
    if manifest.MediaType ≠ MediaTypeImageIndex then
      ({ m with canonical := b },
       some ("mediaType in manifest should be \x27" ++ MediaTypeImageIndex ++
         "\x27 not \x27" ++ manifest.MediaType ++ "\x27"))
    else ({ m with canonical := b, toManifest := manifest }, none)

/-- The Go zero value produced by `new(DeserializedManifest)`. -/
def newDeserializedManifest : DeserializedManifest := {}

/-- Model of the `schema2Func` closure registered by the piddle `init`:
unmarshal into a fresh `DeserializedManifest` and describe the input bytes
by their hash, their length and the image-index media type. The content
hash `digest.FromBytes` is passed in as `hash`. -/
def schema2Func (hash : List Char → String) : distribution.UnmarshalFunc DeserializedManifest :=
  fun b =>
    match DeserializedManifest.UnmarshalJSON newDeserializedManifest b with
    | (_, some e) => Except.error e
    | (m, none) =>
      Except.ok (m,
        { Digest := hash b, Size := (b.length : Int), MediaType := MediaTypeImageIndex })

/-- The registry as left by the piddle `init` function: `schema2Func`
registered for the image-index media type on the empty registry. -/
def initRegistry (hash : List Char → String) :
    List (String × distribution.UnmarshalFunc DeserializedManifest) :=
  (distribution.RegisterManifestSchema [] MediaTypeImageIndex (schema2Func hash)).1

end piddle

/-- Manifest whose media-type field disagrees with the expected constant. -/
def wrongManifest : piddle.Manifest := { MediaType := "wrong" }

/-- Serialized bytes of `wrongManifest`. -/
def wrongBytes : List Char := piddle.jsonMarshalIndent wrongManifest

/-- A concrete well-formed piddle manifest used in witnesses. -/
def sampleManifest : piddle.Manifest :=
  { SchemaVersion := 1, MediaType := piddle.MediaTypeImageIndex,
    Config := { MediaType := piddle.MediaTypeImageConfig, Size := 10, Digest := "sha256:aaa" },
    Layers := [{ MediaType := piddle.MediaTypeLayer, Size := 2, Digest := "sha256:bbb" }] }

/-- Serialized bytes of `sampleManifest`. -/
def sampleBytes : List Char := piddle.jsonMarshalIndent sampleManifest

/-- A concrete stand-in for the content hash in witnesses. -/
def sampleHash : List Char → String := fun _ => "sha256:w"

namespace gojson

/-- A tail is safe after a serialized number when it does not start with a
digit. -/
def restSafe : List Char → Bool
  | [] => true
  | c :: _ => !c.isDigit

/-- Every character is JSON whitespace. -/
def allWs : List Char → Bool
  | [] => true
  | c :: rest => isJsonWs c && allWs rest

/-- Value of a least-significant-first digit list. -/
def valLSD : List Char → Nat
  | [] => 0
  | c :: tl => digitVal c + 10 * valLSD tl

mutual
/-- Size of a JSON value, used as a fuel bound for the parser. -/
def sizeJ : Json → Nat
  | Json.null => 1
  | Json.bool _ => 1
  | Json.num _ => 1
  | Json.str _ => 1
  | Json.arr a => 1 + sizeA a
  | Json.obj o => 1 + sizeO o
/-- Size of a JSON array tail. -/
def sizeA : JsonArr → Nat
  | JsonArr.nil => 1
  | JsonArr.cons j tl => 1 + sizeJ j + sizeA tl
/-- Size of a JSON object tail. -/
def sizeO : JsonObj → Nat
  | JsonObj.nil => 1
  | JsonObj.cons _ v tl => 1 + sizeJ v + sizeO tl
end

end gojson

namespace mime

theorem takeUntilSemi_no_semi : ∀ (l : List Char), ';' ∉ l → takeUntilSemi l = l := by
  intro l h
  induction l with
  | nil => rfl
  | cons c rest ih =>
    simp only [List.mem_cons, not_or] at h
    have hcne : ¬(c = ';') := fun hc => h.1 hc.symm
    simp only [takeUntilSemi, if_neg hcne]
    rw [ih h.2]

theorem takeUntilSemi_append : ∀ (l m : List Char), ';' ∉ l →
    takeUntilSemi (l ++ ';' :: m) = l := by
  intro l m h
  induction l with
  | nil => simp [takeUntilSemi]
  | cons c rest ih =>
    simp only [List.mem_cons, not_or] at h
    have hcne : ¬(c = ';') := fun hc => h.1 hc.symm
    simp only [List.cons_append, takeUntilSemi, if_neg hcne]
    show c :: takeUntilSemi (rest ++ ';' :: m) = c :: rest
    rw [ih h.2]

theorem dropFromSemi_no_semi : ∀ (l : List Char), ';' ∉ l → dropFromSemi l = [] := by
  intro l h
  induction l with
  | nil => rfl
  | cons c rest ih =>
    simp only [List.mem_cons, not_or] at h
    have hcne : ¬(c = ';') := fun hc => h.1 hc.symm
    simp only [dropFromSemi, if_neg hcne]
    exact ih h.2

theorem dropFromSemi_append : ∀ (l m : List Char), ';' ∉ l →
    dropFromSemi (l ++ ';' :: m) = ';' :: m := by
  intro l m h
  induction l with
  | nil => simp [dropFromSemi]
  | cons c rest ih =>
    simp only [List.mem_cons, not_or] at h
    have hcne : ¬(c = ';') := fun hc => h.1 hc.symm
    simp only [List.cons_append, dropFromSemi, if_neg hcne]
    show dropFromSemi (rest ++ ';' :: m) = ';' :: m
    exact ih h.2

theorem parseMediaType_ok_eq {v mt : String} (h : ParseMediaType v = Except.ok mt) :
    mt = String.mk (trimSpace ((takeUntilSemi v.toList).map Char.toLower)) := by
  simp only [ParseMediaType] at h
  cases hc : checkMediaTypeDisposition (trimSpace ((takeUntilSemi v.toList).map Char.toLower)) with
  | some e => rw [hc] at h; cases h
  | none =>
    rw [hc] at h
    by_cases hp : parseParams (dropFromSemi v.toList) = true
    · rw [if_pos hp] at h
      cases h
      rfl
    · rw [if_neg hp] at h
      cases h

theorem parseMediaType_ok_ne_empty {v mt : String} (h : ParseMediaType v = Except.ok mt) :
    mt ≠ "" := by
  have he := parseMediaType_ok_eq h
  intro hemp
  rw [hemp] at he
  have hm0 : trimSpace ((takeUntilSemi v.toList).map Char.toLower) = [] := by
    have := congrArg String.toList he
    simpa using this.symm
  simp only [ParseMediaType] at h
  rw [hm0] at h
  have : checkMediaTypeDisposition [] = some "mime: no media type" := by decide
  rw [this] at h
  cases h

theorem parseMediaType_charset (t : String) (hs : ';' ∉ t.toList) :
    ParseMediaType (t ++ "; charset=utf-8") = ParseMediaType t := by
  simp only [ParseMediaType]
  have hlit : ("; charset=utf-8" : String).toList = ';' :: (" charset=utf-8" : String).toList := rfl
  have htl : (t ++ "; charset=utf-8").toList = t.toList ++ ';' :: (" charset=utf-8" : String).toList := by
    rw [← hlit]
    simp [String.toList]
  rw [htl, takeUntilSemi_append _ _ hs, dropFromSemi_append _ _ hs,
      takeUntilSemi_no_semi _ hs, dropFromSemi_no_semi _ hs]
  have h1 : parseParams [';', ' ', 'c', 'h', 'a', 'r', 's', 'e', 't', '=', 'u', 't', 'f', '-', '8'] = true := by
    decide
  have h2 : parseParams ([] : List Char) = true := by decide
  cases hc : checkMediaTypeDisposition (trimSpace (t.toList.map Char.toLower)) <;>
    simp [hc, h1, h2]

end mime

theorem distribution.unmarshal_dispatch {β : Type}
    (mappings : List (String × distribution.UnmarshalFunc β)) (h : String) (p : List Char)
    (mt : String) (hne : h ≠ "") (hp : mime.ParseMediaType h = Except.ok mt) :
    distribution.UnmarshalManifest mappings h p =
      match distribution.lookupMap mappings mt with
      | some f => f p
      | none =>
        match distribution.lookupMap mappings "" with
        | some f => f p
        | none =>
          Except.error ("unsupported manifest media type and no default available: " ++ mt) := by
  unfold distribution.UnmarshalManifest
  rw [if_neg hne, hp]

/-- C3: for a nonempty Content-Type header that parses per MIME rules,
`UnmarshalManifest` looks up exactly the normalized media type, falling back
to the default empty-string registration and failing with the
unsupported-media-type error naming the offending type when neither is
registered; the normalized type is the lowercased, whitespace-trimmed part
of the header before any `;`, so a header with parameters resolves exactly
as the bare media type does. -/
theorem c3_header_normalization :
    (∀ (β : Type) (mappings : List (String × distribution.UnmarshalFunc β)) (h : String)
       (p : List Char) (mt : String),
       h ≠ "" → mime.ParseMediaType h = Except.ok mt →
       distribution.UnmarshalManifest mappings h p =
         match distribution.lookupMap mappings mt with
         | some f => f p
         | none =>
           match distribution.lookupMap mappings "" with
           | some f => f p
           | none =>
             Except.error ("unsupported manifest media type and no default available: " ++ mt)) ∧
    (∀ (v mt : String), mime.ParseMediaType v = Except.ok mt →
       mt = String.mk (mime.trimSpace ((mime.takeUntilSemi v.toList).map Char.toLower))) ∧
    (∀ (β : Type) (mappings : List (String × distribution.UnmarshalFunc β)) (t : String)
       (p : List Char), t ≠ "" → ';' ∉ t.toList →
       distribution.UnmarshalManifest mappings (t ++ "; charset=utf-8") p =
         distribution.UnmarshalManifest mappings t p) := by
  refine ⟨?_, ?_, ?_⟩
  · intro β mappings h p mt hne hp
    unfold distribution.UnmarshalManifest
    rw [if_neg hne, hp]
  · intro v mt h
    exact mime.parseMediaType_ok_eq h
  · intro β mappings t p ht hsemi
    have hne : t ++ "; charset=utf-8" ≠ "" := by
      intro hc
      have h2 := congrArg String.toList hc
      simp at h2
    unfold distribution.UnmarshalManifest
    rw [if_neg hne, if_neg ht, mime.parseMediaType_charset t hsemi]

/-- Witness for C3 at a concrete registry and a concrete header carrying both
mixed case and a `charset` parameter. -/
theorem c3_header_normalization_witness :
    ("Application/VND.X+json; charset=utf-8" : String) ≠ "" ∧
    mime.ParseMediaType "Application/VND.X+json; charset=utf-8" =
      Except.ok "application/vnd.x+json" ∧
    distribution.UnmarshalManifest [("application/vnd.x+json", exampleFunc)]
      "Application/VND.X+json; charset=utf-8" ['b'] = exampleFunc ['b'] := by
  refine ⟨by decide, by decide, ?_⟩
  have h := c3_header_normalization.1 Unit [("application/vnd.x+json", exampleFunc)]
    "Application/VND.X+json; charset=utf-8" ['b'] "application/vnd.x+json"
    (by decide) (by decide)
  rw [h]
  rfl

/-- C4 (corrected): with only the default handler registered, every header
that is empty or parses per MIME rules dispatches to the default handler;
with no handler registered, every such header fails with the
unsupported-media-type error. (Headers that fail MIME parsing instead
return the parse error before any lookup; see the counterexample.) -/
theorem c4_default_fallback (β : Type) (f : distribution.UnmarshalFunc β) (h : String)
    (p : List Char) (hok : h = "" ∨ ∃ mt, mime.ParseMediaType h = Except.ok mt) :
    distribution.UnmarshalManifest [("", f)] h p = f p ∧
    ∃ mt, distribution.UnmarshalManifest ([] : List (String × distribution.UnmarshalFunc β)) h p =
      Except.error ("unsupported manifest media type and no default available: " ++ mt) := by
  cases hok with
  | inl hemp =>
    subst hemp
    constructor
    · rfl
    · exact ⟨"", rfl⟩
  | inr hex =>
    obtain ⟨mt, hp⟩ := hex
    have hne : h ≠ "" := by
      intro hc
      rw [hc] at hp
      have : mime.ParseMediaType "" = Except.error "mime: no media type" := by decide
      rw [this] at hp
      cases hp
    have hmtne : mt ≠ "" := mime.parseMediaType_ok_ne_empty hp
    constructor
    · unfold distribution.UnmarshalManifest
      rw [if_neg hne, hp]
      have hne2 : ¬(("" : String) = mt) := fun hc => hmtne hc.symm
      simp [distribution.lookupMap, if_neg hne2]
    · refine ⟨mt, ?_⟩
      unfold distribution.UnmarshalManifest
      rw [if_neg hne, hp]
      rfl

/-- Witness for C4's amended statement at the empty header. -/
theorem c4_default_fallback_witness :
    (("" : String) = "" ∨ ∃ mt, mime.ParseMediaType "" = Except.ok mt) ∧
    (distribution.UnmarshalManifest [("", exampleFunc)] "" ['b'] = exampleFunc ['b'] ∧
     ∃ mt, distribution.UnmarshalManifest ([] : List (String × distribution.UnmarshalFunc Unit)) "" ['b'] =
       Except.error ("unsupported manifest media type and no default available: " ++ mt)) :=
  ⟨Or.inl rfl, c4_default_fallback Unit exampleFunc "" ['b'] (Or.inl rfl)⟩

/-- Counterexample to C4 as stated: with only the default handler registered,
the malformed header `"("` does not dispatch to the default handler — MIME
parsing fails first — and with no handler registered the failure for that
header is the MIME parse error, not the unsupported-media-type error. -/
theorem c4_counterexample :
    distribution.UnmarshalManifest [("", exampleFunc)] "(" ['b'] =
      Except.error "mime: no media type" ∧
    exampleFunc ['b'] = Except.ok ((), {}) ∧
    distribution.UnmarshalManifest [("", exampleFunc)] "(" ['b'] ≠ exampleFunc ['b'] ∧
    distribution.UnmarshalManifest ([] : List (String × distribution.UnmarshalFunc Unit)) "(" ['b'] =
      Except.error "mime: no media type" ∧
    distribution.UnmarshalManifest ([] : List (String × distribution.UnmarshalFunc Unit)) "(" ['b'] ≠
      Except.error ("unsupported manifest media type and no default available: " ++ "(") := by
  refine ⟨by decide, by decide, by decide, by decide, by decide⟩

/-- C6: serializing a `DeserializedManifest` returns the stored canonical
bytes whenever they are present, and fails with the uninitialized-manifest
error — rather than returning derived or empty bytes — when no canonical
bytes are stored (as for a freshly constructed value). -/
theorem c6_marshal_canonical (m : piddle.DeserializedManifest) :
    (m.canonical ≠ [] →
       piddle.DeserializedManifest.MarshalJSON m = Except.ok m.canonical) ∧
    (m.canonical = [] →
       piddle.DeserializedManifest.MarshalJSON m =
         Except.error "JSON representation not initialized in DeserializedManifest") := by
  constructor
  · intro h
    unfold piddle.DeserializedManifest.MarshalJSON
    rw [if_pos (List.length_pos.mpr h)]
  · intro h
    unfold piddle.DeserializedManifest.MarshalJSON
    rw [if_neg (by rw [h]; simp)]

/-- Witness for C6 at a freshly constructed value (no canonical bytes) and at
a value holding canonical bytes. -/
theorem c6_marshal_canonical_witness :
    (({} : piddle.DeserializedManifest).canonical = [] ∧
     piddle.DeserializedManifest.MarshalJSON {} =
       Except.error "JSON representation not initialized in DeserializedManifest") ∧
    (({ canonical := ['x'] } : piddle.DeserializedManifest).canonical ≠ [] ∧
     piddle.DeserializedManifest.MarshalJSON { canonical := ['x'] } = Except.ok ['x']) :=
  ⟨⟨rfl, (c6_marshal_canonical {}).2 rfl⟩,
   ⟨by decide, (c6_marshal_canonical { canonical := ['x'] }).1 (by decide)⟩⟩

/-- C7: registering a media type that is already bound fails with the
duplicate-registration error, leaves the registry unchanged — the original
function stays bound to that key — and changes no other key. -/
theorem c7_register_once (β : Type) (mappings : List (String × distribution.UnmarshalFunc β))
    (mediaType : String) (f u : distribution.UnmarshalFunc β)
    (h : distribution.lookupMap mappings mediaType = some f) :
    distribution.RegisterManifestSchema mappings mediaType u =
      (mappings,
       some ("manifest media type registration would overwrite existing: " ++ mediaType)) ∧
    distribution.lookupMap (distribution.RegisterManifestSchema mappings mediaType u).1
      mediaType = some f ∧
    ∀ k, distribution.lookupMap (distribution.RegisterManifestSchema mappings mediaType u).1 k =
      distribution.lookupMap mappings k := by
  unfold distribution.RegisterManifestSchema
  rw [h]
  exact ⟨rfl, h, fun k => rfl⟩

/-- Witness for C7: a second registration of an already-registered media type
at a concrete one-entry registry. -/
theorem c7_register_once_witness :
    distribution.lookupMap [("m", exampleFunc)] "m" = some exampleFunc ∧
    (distribution.RegisterManifestSchema [("m", exampleFunc)] "m" exampleFunc2 =
       ([("m", exampleFunc)],
        some ("manifest media type registration would overwrite existing: " ++ "m")) ∧
     distribution.lookupMap
       (distribution.RegisterManifestSchema [("m", exampleFunc)] "m" exampleFunc2).1 "m" =
       some exampleFunc ∧
     ∀ k, distribution.lookupMap
       (distribution.RegisterManifestSchema [("m", exampleFunc)] "m" exampleFunc2).1 k =
       distribution.lookupMap [("m", exampleFunc)] k) :=
  ⟨rfl, c7_register_once Unit [("m", exampleFunc)] "m" exampleFunc exampleFunc2 rfl⟩

/-- C8: `References` returns the config descriptor first, followed by the
layers in stored order, with length one more than the number of layers. -/
theorem c8_references (m : piddle.Manifest) :
    piddle.Manifest.References m = m.Config :: m.Layers ∧
    (piddle.Manifest.References m).length = 1 + m.Layers.length := by
  constructor
  · rfl
  · simp [piddle.Manifest.References]
    omega

/-- C10: with an empty Content-Type header, `UnmarshalManifest` performs no
MIME parsing and resolves directly against the default empty-string
registration: it runs the default handler if one is registered and
otherwise fails with the unsupported-media-type error, so the only failure
modes are a missing default registration or an error from the default
handler itself. -/
theorem c10_empty_header_default (β : Type)
    (mappings : List (String × distribution.UnmarshalFunc β)) (p : List Char) :
    distribution.UnmarshalManifest mappings "" p =
      match distribution.lookupMap mappings "" with
      | some f => f p
      | none =>
        Except.error ("unsupported manifest media type and no default available: " ++ "") := by
  unfold distribution.UnmarshalManifest
  rw [if_pos rfl]
  cases h : distribution.lookupMap mappings "" <;> simp [h]

namespace piddle

theorem unmarshalJSON_canonical (m : DeserializedManifest) (b : List Char) :
    (DeserializedManifest.UnmarshalJSON m b).1.canonical = b := by
  unfold DeserializedManifest.UnmarshalJSON
  cases hj : jsonUnmarshal b with
  | error e => rfl
  | ok mf =>
    by_cases hmt : mf.MediaType ≠ MediaTypeImageIndex
    · simp [hmt]
    · simp [hmt]

theorem unmarshalJSON_err_manifest (m : DeserializedManifest) (b : List Char) (e : String)
    (h : (DeserializedManifest.UnmarshalJSON m b).2 = some e) :
    (DeserializedManifest.UnmarshalJSON m b).1.toManifest = m.toManifest := by
  unfold DeserializedManifest.UnmarshalJSON at h ⊢
  rcases hj : jsonUnmarshal b with e2 | mf
  · rfl
  · by_cases hmt : mf.MediaType ≠ MediaTypeImageIndex
    · simp [hmt]
    · rw [hj] at h
      simp [hmt] at h

theorem schema2Func_ok (hash : List Char → String) (b : List Char)
    (m : DeserializedManifest) (d : distribution.Descriptor)
    (h : schema2Func hash b = Except.ok (m, d)) :
    m.canonical = b ∧
    d = { Digest := hash b, Size := (b.length : Int), MediaType := MediaTypeImageIndex } := by
  unfold schema2Func at h
  rcases he : DeserializedManifest.UnmarshalJSON newDeserializedManifest b with ⟨m1, err⟩
  rw [he] at h
  cases err with
  | some e => cases h
  | none =>
    cases h
    have hc := unmarshalJSON_canonical newDeserializedManifest b
    rw [he] at hc
    exact ⟨hc, rfl⟩

end piddle

/-- C9: a failing `UnmarshalJSON` is not atomic on its receiver: whenever it
reports an error, the receiver's canonical bytes have already been replaced
by a copy of the input, while the structured manifest fields are left
unchanged. -/
theorem c9_unmarshal_failure_state (m : piddle.DeserializedManifest) (b : List Char)
    (e : String) (h : (piddle.DeserializedManifest.UnmarshalJSON m b).2 = some e) :
    (piddle.DeserializedManifest.UnmarshalJSON m b).1.canonical = b ∧
    (piddle.DeserializedManifest.UnmarshalJSON m b).1.toManifest = m.toManifest :=
  ⟨piddle.unmarshalJSON_canonical m b, piddle.unmarshalJSON_err_manifest m b e h⟩

/-- Witness for C9 at a concrete input whose media-type field is wrong. -/
theorem c9_unmarshal_failure_state_witness :
    (piddle.DeserializedManifest.UnmarshalJSON {} wrongBytes).2 =
      some ("mediaType in manifest should be \x27" ++ piddle.MediaTypeImageIndex ++
        "\x27 not \x27wrong\x27") ∧
    ((piddle.DeserializedManifest.UnmarshalJSON {} wrongBytes).1.canonical = wrongBytes ∧
     (piddle.DeserializedManifest.UnmarshalJSON {} wrongBytes).1.toManifest =
       ({} : piddle.DeserializedManifest).toManifest) :=
  ⟨by decide,
   c9_unmarshal_failure_state {} wrongBytes
     ("mediaType in manifest should be \x27" ++ piddle.MediaTypeImageIndex ++
       "\x27 not \x27wrong\x27") (by decide)⟩

/-- C5: bytes that decode into a manifest structure whose media-type field
differs from the image-index constant make `UnmarshalJSON` — and hence the
registered handler and `UnmarshalManifest` through it — fail with the
schema-mismatch error naming both the expected and the actual value. -/
theorem c5_media_type_mismatch (d : piddle.DeserializedManifest) (b : List Char)
    (mf : piddle.Manifest) (hash : List Char → String)
    (hok : piddle.jsonUnmarshal b = Except.ok mf)
    (hne : mf.MediaType ≠ piddle.MediaTypeImageIndex) :
    (piddle.DeserializedManifest.UnmarshalJSON d b).2 =
      some ("mediaType in manifest should be \x27" ++ piddle.MediaTypeImageIndex ++
        "\x27 not \x27" ++ mf.MediaType ++ "\x27") ∧
    piddle.schema2Func hash b = Except.error
      ("mediaType in manifest should be \x27" ++ piddle.MediaTypeImageIndex ++
        "\x27 not \x27" ++ mf.MediaType ++ "\x27") ∧
    distribution.UnmarshalManifest (piddle.initRegistry hash) piddle.MediaTypeImageIndex b =
      Except.error ("mediaType in manifest should be \x27" ++ piddle.MediaTypeImageIndex ++
        "\x27 not \x27" ++ mf.MediaType ++ "\x27") := by
  have h1 : ∀ (d2 : piddle.DeserializedManifest),
      (piddle.DeserializedManifest.UnmarshalJSON d2 b).2 =
        some ("mediaType in manifest should be \x27" ++ piddle.MediaTypeImageIndex ++
          "\x27 not \x27" ++ mf.MediaType ++ "\x27") := by
    intro d2
    unfold piddle.DeserializedManifest.UnmarshalJSON
    rw [hok]
    simp [hne]
  have h2 : piddle.schema2Func hash b = Except.error
      ("mediaType in manifest should be \x27" ++ piddle.MediaTypeImageIndex ++
        "\x27 not \x27" ++ mf.MediaType ++ "\x27") := by
    unfold piddle.schema2Func
    rcases hr : piddle.DeserializedManifest.UnmarshalJSON piddle.newDeserializedManifest b
      with ⟨m1, err⟩
    have h3 := h1 piddle.newDeserializedManifest
    rw [hr] at h3
    simp only at h3
    rw [h3]
  refine ⟨h1 d, h2, ?_⟩
  rw [distribution.unmarshal_dispatch (piddle.initRegistry hash) piddle.MediaTypeImageIndex b
    piddle.MediaTypeImageIndex (by decide) (by decide)]
  have hl : distribution.lookupMap (piddle.initRegistry hash) piddle.MediaTypeImageIndex =
      some (piddle.schema2Func hash) := rfl
  rw [hl]
  exact h2

/-- Witness for C5 at the concrete wrong-media-type bytes. -/
theorem c5_media_type_mismatch_witness :
    piddle.jsonUnmarshal wrongBytes = Except.ok wrongManifest ∧
    wrongManifest.MediaType ≠ piddle.MediaTypeImageIndex ∧
    ((piddle.DeserializedManifest.UnmarshalJSON {} wrongBytes).2 =
       some ("mediaType in manifest should be \x27" ++ piddle.MediaTypeImageIndex ++
         "\x27 not \x27" ++ wrongManifest.MediaType ++ "\x27") ∧
     piddle.schema2Func (fun _ => "sha256:w") wrongBytes = Except.error
       ("mediaType in manifest should be \x27" ++ piddle.MediaTypeImageIndex ++
         "\x27 not \x27" ++ wrongManifest.MediaType ++ "\x27") ∧
     distribution.UnmarshalManifest (piddle.initRegistry (fun _ => "sha256:w"))
       piddle.MediaTypeImageIndex wrongBytes = Except.error
       ("mediaType in manifest should be \x27" ++ piddle.MediaTypeImageIndex ++
         "\x27 not \x27" ++ wrongManifest.MediaType ++ "\x27")) :=
  ⟨by decide, by decide,
   c5_media_type_mismatch {} wrongBytes wrongManifest (fun _ => "sha256:w")
     (by decide) (by decide)⟩

/-- C2: whenever `UnmarshalManifest` through the registered piddle handler
succeeds, the returned descriptor's digest is the hash of exactly the input
bytes, its size is the input length, and the reconstructed manifest's
payload bytes are exactly the input — so the digest of the payload equals
the digest of the original input. -/
theorem c2_descriptor_exact_bytes (hash : List Char → String) (h : String) (p : List Char)
    (m : piddle.DeserializedManifest) (d : distribution.Descriptor)
    (hok : distribution.UnmarshalManifest (piddle.initRegistry hash) h p = Except.ok (m, d)) :
    d.Digest = hash p ∧ d.Size = (p.length : Int) ∧
    d.MediaType = piddle.MediaTypeImageIndex ∧
    (piddle.DeserializedManifest.Payload m).2.1 = p ∧
    hash (piddle.DeserializedManifest.Payload m).2.1 = hash p := by
  have hs : piddle.schema2Func hash p = Except.ok (m, d) := by
    by_cases hemp : h = ""
    · subst hemp
      have hempty : distribution.UnmarshalManifest (piddle.initRegistry hash) "" p =
          Except.error ("unsupported manifest media type and no default available: " ++ "") :=
        rfl
      rw [hempty] at hok
      cases hok
    · cases hhdr : mime.ParseMediaType h with
      | error e =>
        have herr : distribution.UnmarshalManifest (piddle.initRegistry hash) h p =
            Except.error e := by
          unfold distribution.UnmarshalManifest
          rw [if_neg hemp, hhdr]
        rw [herr] at hok
        cases hok
      | ok mt =>
        rw [distribution.unmarshal_dispatch (piddle.initRegistry hash) h p mt hemp hhdr] at hok
        by_cases hmt : piddle.MediaTypeImageIndex = mt
        · subst hmt
          have hl : distribution.lookupMap (piddle.initRegistry hash)
              piddle.MediaTypeImageIndex = some (piddle.schema2Func hash) := rfl
          rw [hl] at hok
          exact hok
        · have hl : distribution.lookupMap (piddle.initRegistry hash) mt = none := by
            simp [piddle.initRegistry, distribution.RegisterManifestSchema,
              distribution.lookupMap, hmt]
          have hl2 : distribution.lookupMap (piddle.initRegistry hash) "" = none := rfl
          rw [hl, hl2] at hok
          cases hok
  obtain ⟨hc, hd⟩ := piddle.schema2Func_ok hash p m d hs
  subst hd
  refine ⟨rfl, rfl, rfl, ?_, ?_⟩
  · simpa [piddle.DeserializedManifest.Payload] using hc
  · simp [piddle.DeserializedManifest.Payload, hc]

/-- Witness for C2 at the concrete sample manifest bytes. -/
theorem c2_descriptor_exact_bytes_witness :
    distribution.UnmarshalManifest (piddle.initRegistry sampleHash) piddle.MediaTypeImageIndex
      sampleBytes = Except.ok
        (⟨sampleManifest, sampleBytes⟩,
         { Digest := "sha256:w", Size := (sampleBytes.length : Int),
           MediaType := piddle.MediaTypeImageIndex }) ∧
    ("sha256:w" = sampleHash sampleBytes ∧
     ((sampleBytes.length : Int)) = ((sampleBytes.length : Int)) ∧
     piddle.MediaTypeImageIndex = piddle.MediaTypeImageIndex ∧
     (piddle.DeserializedManifest.Payload ⟨sampleManifest, sampleBytes⟩).2.1 = sampleBytes ∧
     sampleHash (piddle.DeserializedManifest.Payload ⟨sampleManifest, sampleBytes⟩).2.1 =
       sampleHash sampleBytes) := by
  refine ⟨by decide, ?_⟩
  have h := c2_descriptor_exact_bytes sampleHash piddle.MediaTypeImageIndex sampleBytes
    ⟨sampleManifest, sampleBytes⟩
    { Digest := "sha256:w", Size := (sampleBytes.length : Int),
      MediaType := piddle.MediaTypeImageIndex }
    (by decide)
  exact h

namespace gojson

theorem skipWs_ws_append {w : List Char} (hw : allWs w = true) (l : List Char) :
    skipWs (w ++ l) = skipWs l := by
  induction w with
  | nil => rfl
  | cons c tl ih =>
    simp only [allWs, Bool.and_eq_true] at hw
    simp only [List.cons_append, skipWs, if_pos hw.1]
    exact ih hw.2

theorem skipWs_not_ws {c : Char} (h : isJsonWs c = false) (l : List Char) :
    skipWs (c :: l) = c :: l := by
  simp only [skipWs, h]
  simp

theorem indent_allWs (d : Nat) : allWs (indent d) = true := by
  unfold indent
  induction (3 * d) with
  | zero => rfl
  | succ n ih =>
    simp only [List.replicate, allWs, Bool.and_eq_true]
    exact ⟨by decide, ih⟩

theorem parseStrChars_quote (rest : List Char) : parseStrChars ('"' :: rest) = some ([], rest) := by
  rw [parseStrChars.eq_def]
  simp

theorem parseStrChars_esc (c : Char) (rest : List Char) :
    parseStrChars ('\\' :: c :: rest) =
      (parseStrChars rest).map (fun p => (c :: p.1, p.2)) := by
  cases h : parseStrChars rest with
  | none => rw [parseStrChars.eq_def]; simp [h]
  | some p => rw [parseStrChars.eq_def]; simp [h]

theorem parseStrChars_plain {c : Char} (hq : ¬(c = '"')) (hb : ¬(c = '\\'))
    (rest : List Char) :
    parseStrChars (c :: rest) =
      (parseStrChars rest).map (fun p => (c :: p.1, p.2)) := by
  cases h : parseStrChars rest with
  | none => rw [parseStrChars.eq_def]; simp [hq, hb, h]
  | some p => rw [parseStrChars.eq_def]; simp [hq, hb, h]

theorem parseStr_escString : ∀ (s rest : List Char),
    parseStrChars (escString s ++ '"' :: rest) = some (s, rest) := by
  intro s
  induction s with
  | nil =>
    intro rest
    show parseStrChars ('"' :: rest) = some ([], rest)
    exact parseStrChars_quote rest
  | cons c tl ih =>
    intro rest
    by_cases hq : c = '"'
    · subst hq
      have he : escString ('"' :: tl) = '\\' :: '"' :: escString tl := by
        simp [escString, escChar]
      rw [he, List.cons_append, List.cons_append, parseStrChars_esc, ih]
      rfl
    · by_cases hb : c = '\\'
      · subst hb
        have he : escString ('\\' :: tl) = '\\' :: '\\' :: escString tl := by
          simp [escString, escChar]
        rw [he, List.cons_append, List.cons_append, parseStrChars_esc, ih]
        rfl
      · have he : escString (c :: tl) = c :: escString tl := by
          simp [escString, escChar, hq, hb]
        rw [he, List.cons_append, parseStrChars_plain hq hb, ih]
        rfl

theorem digitChar_isDigit (d : Nat) (h : d < 10) : (digitChar d).isDigit = true := by
  interval_cases d <;> decide

theorem digitVal_digitChar (d : Nat) (h : d < 10) : digitVal (digitChar d) = d := by
  interval_cases d <;> decide

theorem natDigitsAux_digits : ∀ (fuel n : Nat), ∀ c ∈ natDigitsAux fuel n, c.isDigit = true := by
  intro fuel
  induction fuel with
  | zero => intro n c hc; cases hc
  | succ f ih =>
    intro n c hc
    match n with
    | 0 => cases hc
    | m + 1 =>
      simp only [natDigitsAux, List.mem_cons] at hc
      cases hc with
      | inl h => rw [h]; exact digitChar_isDigit _ (Nat.mod_lt _ (by omega))
      | inr h => exact ih _ c h

theorem valLSD_natDigitsAux : ∀ (fuel n : Nat), n ≤ fuel →
    valLSD (natDigitsAux fuel n) = n := by
  intro fuel
  induction fuel with
  | zero => intro n h; interval_cases n; rfl
  | succ f ih =>
    intro n h
    match n with
    | 0 => rfl
    | m + 1 =>
      simp only [natDigitsAux, valLSD]
      rw [digitVal_digitChar _ (Nat.mod_lt _ (by omega)), ih ((m + 1) / 10) (by omega)]
      omega

theorem natFromDigits_reverse : ∀ (l : List Char), natFromDigits l.reverse = valLSD l := by
  intro l
  induction l with
  | nil => rfl
  | cons c tl ih =>
    simp only [natFromDigits, List.reverse_cons, List.foldl_append, List.foldl_cons,
      List.foldl_nil, valLSD] at ih ⊢
    rw [ih]
    omega

theorem takeDigits_exact : ∀ (ds rest : List Char), (∀ c ∈ ds, c.isDigit = true) →
    restSafe rest = true → takeDigits (ds ++ rest) = (ds, rest) := by
  intro ds
  induction ds with
  | nil =>
    intro rest _ hrest
    cases rest with
    | nil => rfl
    | cons c tl =>
      simp only [restSafe, Bool.not_eq_true'] at hrest
      simp [takeDigits, hrest]
  | cons c tl ih =>
    intro rest hds hrest
    simp only [List.cons_append, takeDigits, if_pos (hds c (List.mem_cons_self c tl)),
      List.append_eq]
    rw [ih rest (fun x hx => hds x (List.mem_cons_of_mem c hx)) hrest]

theorem serNat_digits (n : Nat) : ∀ c ∈ serNat n, c.isDigit = true := by
  intro c hc
  unfold serNat at hc
  by_cases h0 : n = 0
  · rw [if_pos h0] at hc
    simp only [List.mem_singleton] at hc
    rw [hc]; decide
  · rw [if_neg h0] at hc
    rw [List.mem_reverse] at hc
    exact natDigitsAux_digits n n c hc

theorem serNat_ne_nil (n : Nat) : serNat n ≠ [] := by
  unfold serNat
  by_cases h0 : n = 0
  · rw [if_pos h0]; simp
  · rw [if_neg h0]
    simp only [ne_eq, List.reverse_eq_nil_iff]
    match n, h0 with
    | m + 1, _ => simp [natDigitsAux]

theorem natFromDigits_serNat (n : Nat) : natFromDigits (serNat n) = n := by
  unfold serNat
  by_cases h0 : n = 0
  · rw [if_pos h0]; subst h0; decide
  · rw [if_neg h0, natFromDigits_reverse, valLSD_natDigitsAux n n (Nat.le_refl n)]

theorem parseNumber_serInt (n : Int) (rest : List Char) (hrest : restSafe rest = true) :
    parseNumber (serInt n ++ rest) = some (n, rest) := by
  unfold serInt
  by_cases hneg : n < 0
  · rw [if_pos hneg]
    simp only [List.cons_append, parseNumber, if_pos rfl,
      takeDigits_exact _ _ (serNat_digits _) hrest]
    rw [if_neg (serNat_ne_nil n.natAbs), natFromDigits_serNat]
    have hn : -((n.natAbs : Nat) : Int) = n := by omega
    rw [hn]
    simp
  · rw [if_neg hneg]
    rcases hser : serNat n.natAbs with _ | ⟨c, l⟩
    · exact absurd hser (serNat_ne_nil _)
    · have hcd : c.isDigit = true := by
        have hsd := serNat_digits n.natAbs c
        rw [hser] at hsd
        exact hsd (List.mem_cons_self c l)
      have hcm : ¬(c = '-') := by
        intro hc
        rw [hc] at hcd
        cases hcd
      have htd : takeDigits (c :: (l ++ rest)) = (c :: l, rest) := by
        have h2 := takeDigits_exact (c :: l) rest
          (by rw [← hser]; exact serNat_digits _) hrest
        simpa using h2
      simp only [List.cons_append, parseNumber, if_neg hcm, htd]
      have hne : ¬(c :: l = []) := by simp
      rw [if_neg hne, ← hser, natFromDigits_serNat]
      have hn : ((n.natAbs : Nat) : Int) = n := by omega
      rw [hn]

theorem sizeJ_pos (j : Json) : 1 ≤ sizeJ j := by
  cases j <;> simp [sizeJ] <;> omega

theorem sizeA_pos (a : JsonArr) : 1 ≤ sizeA a := by
  cases a <;> simp [sizeA] <;> omega

theorem sizeO_pos (o : JsonObj) : 1 ≤ sizeO o := by
  cases o <;> simp [sizeO] <;> omega

theorem digit_facts {c : Char} (h : c.isDigit = true) :
    isJsonWs c = false ∧ ¬(c = '"') ∧ ¬(c = '[') ∧ ¬(c = '{') ∧ ¬(c = 'n') ∧
    ¬(c = 't') ∧ ¬(c = 'f') ∧ ¬(c = ']') ∧ ¬(c = '}') ∧ ¬(c = ',') ∧ ¬(c = '-') := by
  refine ⟨?_, ?_, ?_, ?_, ?_, ?_, ?_, ?_, ?_, ?_, ?_⟩
  · cases hws : isJsonWs c
    · rfl
    · exfalso
      simp only [isJsonWs, Bool.or_eq_true, decide_eq_true_eq] at hws
      rcases hws with ((h1 | h1) | h1) | h1 <;> (subst h1; cases h)
  all_goals exact fun hc => absurd (hc ▸ h) (by decide)

theorem serNat_head (n : Nat) : ∃ c l, serNat n = c :: l ∧ c.isDigit = true := by
  rcases hser : serNat n with _ | ⟨c, l⟩
  · exact absurd hser (serNat_ne_nil n)
  · refine ⟨c, l, rfl, ?_⟩
    have hd := serNat_digits n c
    rw [hser] at hd
    exact hd (List.mem_cons_self c l)

theorem char_head_ok {c : Char} (h : (!isJsonWs c && !(c = ']') && !(c = '}')) = true) :
    isJsonWs c = false ∧ ¬(c = ']') ∧ ¬(c = '}') := by
  simp only [Bool.and_eq_true, Bool.not_eq_true', decide_eq_true_eq,
    Bool.not_eq_true, decide_eq_false_iff_not] at h
  exact ⟨h.1.1, h.1.2, h.2⟩

theorem serJson_head (d : Nat) (j : Json) : ∃ c l, serJson d j = c :: l ∧
    isJsonWs c = false ∧ ¬(c = ']') ∧ ¬(c = '}') := by
  cases j with
  | num n =>
    unfold serJson serInt
    by_cases hneg : n < 0
    · rw [if_pos hneg]
      refine ⟨'-', _, rfl, char_head_ok (by decide)⟩
    · rw [if_neg hneg]
      obtain ⟨c, l, hser, hc⟩ := serNat_head n.natAbs
      obtain ⟨h1, _, _, _, _, _, _, h8, h9, _, _⟩ := digit_facts hc
      exact ⟨c, l, hser, h1, h8, h9⟩
  | null => refine ⟨'n', _, rfl, char_head_ok (by decide)⟩
  | str s => refine ⟨'"', _, rfl, char_head_ok (by decide)⟩
  | bool b =>
    cases b with
    | true => refine ⟨'t', _, rfl, char_head_ok (by decide)⟩
    | false => refine ⟨'f', _, rfl, char_head_ok (by decide)⟩
  | arr a =>
    cases a with
    | nil => refine ⟨'[', _, rfl, char_head_ok (by decide)⟩
    | cons j tl => refine ⟨'[', _, rfl, char_head_ok (by decide)⟩
  | obj o =>
    cases o with
    | nil => refine ⟨'{', _, rfl, char_head_ok (by decide)⟩
    | cons k v tl => refine ⟨'{', _, rfl, char_head_ok (by decide)⟩

theorem restSafe_itemsTail (d : Nat) (tl : JsonArr) (x : Char) (X : List Char)
    (hx : x.isDigit = false) : restSafe (serItemsTail d tl ++ x :: X) = true := by
  cases tl with
  | nil => simp [serItemsTail, restSafe, hx]
  | cons j tl2 => simp [serItemsTail, restSafe]

theorem restSafe_fieldsTail (d : Nat) (fs : JsonObj) (x : Char) (X : List Char)
    (hx : x.isDigit = false) : restSafe (serFieldsTail d fs ++ x :: X) = true := by
  cases fs with
  | nil => simp [serFieldsTail, restSafe, hx]
  | cons k v tl2 => simp [serFieldsTail, restSafe]

theorem stringMk_toList (s : String) : String.mk s.toList = s := by
  cases s
  rfl

theorem allWs_nl_indent (k : Nat) : allWs ('\n' :: indent k) = true := by
  simp only [allWs, Bool.and_eq_true]
  exact ⟨by decide, indent_allWs k⟩

theorem skipWs_nl_indent (k : Nat) (y : List Char) :
    skipWs ('\n' :: (indent k ++ y)) = skipWs y := by
  have h : ('\n' :: (indent k ++ y)) = (('\n' :: indent k) ++ y) := rfl
  rw [h, skipWs_ws_append (allWs_nl_indent k)]

theorem skipWs_serJson (d : Nat) (j : Json) (X : List Char) :
    skipWs (serJson d j ++ X) = serJson d j ++ X := by
  obtain ⟨c, l, hser, hnw, _, _⟩ := serJson_head d j
  rw [hser, List.cons_append, skipWs_not_ws hnw]

mutual

theorem roundtrip_val (j : Json) (fuel d : Nat) (w rest : List Char) (hw : allWs w = true)
    (hrest : restSafe rest = true) (hsz : sizeJ j ≤ fuel) :
    parseVal fuel (w ++ (serJson d j ++ rest)) = some (j, rest) := by
  cases j with
  | null =>
    simp only [sizeJ] at hsz
    cases fuel with
    | zero => omega
    | succ f =>
      rw [parseVal.eq_def]
      simp only []
      rw [skipWs_ws_append hw]
      have h1 : serJson d Json.null ++ rest = 'n' :: ('u' :: 'l' :: 'l' :: rest) := rfl
      rw [h1, skipWs_not_ws (by decide)]
      simp
  | bool b =>
    simp only [sizeJ] at hsz
    cases fuel with
    | zero => omega
    | succ f =>
      rw [parseVal.eq_def]
      simp only []
      rw [skipWs_ws_append hw]
      cases b with
      | true =>
        have h1 : serJson d (Json.bool true) ++ rest = 't' :: ('r' :: 'u' :: 'e' :: rest) := rfl
        rw [h1, skipWs_not_ws (by decide)]
        simp
      | false =>
        have h1 : serJson d (Json.bool false) ++ rest =
            'f' :: ('a' :: 'l' :: 's' :: 'e' :: rest) := rfl
        rw [h1, skipWs_not_ws (by decide)]
        simp
  | num n =>
    simp only [sizeJ] at hsz
    cases fuel with
    | zero => omega
    | succ f =>
      rw [parseVal.eq_def]
      simp only []
      rw [skipWs_ws_append hw]
      rcases hser : serInt n with _ | ⟨c, l⟩
      · exfalso
        unfold serInt at hser
        by_cases hneg : n < 0
        · rw [if_pos hneg] at hser; cases hser
        · rw [if_neg hneg] at hser; exact serNat_ne_nil _ hser
      · have hc : c = '-' ∨ c.isDigit = true := by
          unfold serInt at hser
          by_cases hneg : n < 0
          · rw [if_pos hneg] at hser
            left
            cases hser
            rfl
          · rw [if_neg hneg] at hser
            right
            have hd := serNat_digits n.natAbs c
            rw [hser] at hd
            exact hd (List.mem_cons_self c l)
        have hfacts : isJsonWs c = false ∧ ¬(c = '"') ∧ ¬(c = '[') ∧ ¬(c = '{') ∧
            ¬(c = 'n') ∧ ¬(c = 't') ∧ ¬(c = 'f') := by
          rcases hc with hc | hc
          · subst hc
            exact ⟨by decide, by decide, by decide, by decide, by decide, by decide, by decide⟩
          · obtain ⟨a0, a1, a2, a3, a4, a5, a6, _, _, _, _⟩ := digit_facts hc
            exact ⟨a0, a1, a2, a3, a4, a5, a6⟩
        have h1 : serJson d (Json.num n) ++ rest = c :: (l ++ rest) := by
          show serInt n ++ rest = _
          rw [hser, List.cons_append]
        have hp : parseNumber (c :: (l ++ rest)) = some (n, rest) := by
          have h2 : c :: (l ++ rest) = serInt n ++ rest := by
            rw [hser, List.cons_append]
          rw [h2]
          exact parseNumber_serInt n rest hrest
        rw [h1, skipWs_not_ws hfacts.1]
        simp [hfacts.2.1, hfacts.2.2.1, hfacts.2.2.2.1, hfacts.2.2.2.2.1,
          hfacts.2.2.2.2.2.1, hfacts.2.2.2.2.2.2, hp]
  | str s =>
    simp only [sizeJ] at hsz
    cases fuel with
    | zero => omega
    | succ f =>
      rw [parseVal.eq_def]
      simp only []
      rw [skipWs_ws_append hw]
      have h1 : serJson d (Json.str s) ++ rest =
          '"' :: (escString s.toList ++ ('"' :: rest)) := by
        show ('"' :: (escString s.toList ++ ['"'])) ++ rest = _
        simp [List.cons_append, List.append_assoc]
      rw [h1, skipWs_not_ws (by decide)]
      simp [parseStr_escString, stringMk_toList]
  | arr a =>
    cases a with
    | nil =>
      simp only [sizeJ, sizeA] at hsz
      cases fuel with
      | zero => omega
      | succ f =>
        rw [parseVal.eq_def]
        simp only []
        rw [skipWs_ws_append hw]
        have h1 : serJson d (Json.arr JsonArr.nil) ++ rest = '[' :: (']' :: rest) := rfl
        rw [h1, skipWs_not_ws (by decide)]
        cases f with
        | zero => omega
        | succ f1 =>
          have hAI : parseArrItems (f1 + 1) (']' :: rest) = some (JsonArr.nil, rest) := by
            rw [parseArrItems.eq_def]
            simp only []
            rw [skipWs_not_ws (by decide)]
            simp
          simp [hAI]
    | cons j1 tl =>
      simp only [sizeJ, sizeA] at hsz
      have hj1 := sizeJ_pos j1
      have htl := sizeA_pos tl
      cases fuel with
      | zero => omega
      | succ f =>
        rw [parseVal.eq_def]
        simp only []
        rw [skipWs_ws_append hw]
        have h1 : serJson d (Json.arr (JsonArr.cons j1 tl)) ++ rest =
            '[' :: ('\n' :: (indent (d + 1) ++ (serJson (d + 1) j1 ++
              (serItemsTail (d + 1) tl ++ '\n' :: (indent d ++ (']' :: rest)))))) := by
          show ('[' :: '\n' :: (indent (d + 1) ++ serJson (d + 1) j1 ++
            serItemsTail (d + 1) tl ++ '\n' :: (indent d ++ [']']))) ++ rest = _
          simp [List.cons_append, List.append_assoc]
        rw [h1, skipWs_not_ws (by decide)]
        cases f with
        | zero => omega
        | succ f1 =>
          have hTS : restSafe (serItemsTail (d + 1) tl ++
              '\n' :: (indent d ++ (']' :: rest))) = true :=
            restSafe_itemsTail (d + 1) tl '\n' (indent d ++ (']' :: rest)) (by decide)
          obtain ⟨c2, l2, hser2, hnw2, hne2, _⟩ := serJson_head (d + 1) j1
          have hval : parseVal f1 (c2 :: (l2 ++ (serItemsTail (d + 1) tl ++
              '\n' :: (indent d ++ (']' :: rest))))) =
              some (j1, serItemsTail (d + 1) tl ++ '\n' :: (indent d ++ (']' :: rest))) := by
            have h2 : c2 :: (l2 ++ (serItemsTail (d + 1) tl ++
                '\n' :: (indent d ++ (']' :: rest)))) =
                [] ++ (serJson (d + 1) j1 ++ (serItemsTail (d + 1) tl ++
                  '\n' :: (indent d ++ (']' :: rest)))) := by
              rw [hser2, List.cons_append, List.nil_append]
            rw [h2]
            exact roundtrip_val j1 f1 (d + 1) [] _ rfl hTS (by omega)
          have hra : parseArrRest f1 (serItemsTail (d + 1) tl ++
              '\n' :: (indent d ++ (']' :: rest))) = some (tl, rest) :=
            roundtrip_arrRest tl f1 (d + 1) d rest hrest (by omega)
          have hAI : parseArrItems (f1 + 1) ('\n' :: (indent (d + 1) ++ (serJson (d + 1) j1 ++
              (serItemsTail (d + 1) tl ++ '\n' :: (indent d ++ (']' :: rest)))))) =
              some (JsonArr.cons j1 tl, rest) := by
            rw [parseArrItems.eq_def]
            simp only []
            rw [skipWs_nl_indent, skipWs_serJson, hser2, List.cons_append]
            simp [hne2, hval, hra]
          simp [hAI]
  | obj o =>
    cases o with
    | nil =>
      simp only [sizeJ, sizeO] at hsz
      cases fuel with
      | zero => omega
      | succ f =>
        rw [parseVal.eq_def]
        simp only []
        rw [skipWs_ws_append hw]
        have h1 : serJson d (Json.obj JsonObj.nil) ++ rest = '{' :: ('}' :: rest) := rfl
        rw [h1, skipWs_not_ws (by decide)]
        cases f with
        | zero => omega
        | succ f1 =>
          have hOF : parseObjFields (f1 + 1) ('}' :: rest) = some (JsonObj.nil, rest) := by
            rw [parseObjFields.eq_def]
            simp only []
            rw [skipWs_not_ws (by decide)]
            simp
          simp [hOF]
    | cons k v fs =>
      simp only [sizeJ, sizeO] at hsz
      have hv := sizeJ_pos v
      have hfs := sizeO_pos fs
      cases fuel with
      | zero => omega
      | succ f =>
        rw [parseVal.eq_def]
        simp only []
        rw [skipWs_ws_append hw]
        have h1 : serJson d (Json.obj (JsonObj.cons k v fs)) ++ rest =
            '{' :: ('\n' :: (indent (d + 1) ++
              (('"' :: (escString k.toList ++ '"' :: ':' :: ' ' :: serJson (d + 1) v)) ++
                (serFieldsTail (d + 1) fs ++ '\n' :: (indent d ++ ('}' :: rest)))))) := by
          show ('{' :: '\n' :: (indent (d + 1) ++
            ('"' :: (escString k.toList ++ '"' :: ':' :: ' ' :: serJson (d + 1) v)) ++
            serFieldsTail (d + 1) fs ++ '\n' :: (indent d ++ ['}']))) ++ rest = _
          simp [List.cons_append, List.append_assoc]
        rw [h1, skipWs_not_ws (by decide)]
        cases f with
        | zero => omega
        | succ f1 =>
          have hTS : restSafe (serFieldsTail (d + 1) fs ++
              '\n' :: (indent d ++ ('}' :: rest))) = true :=
            restSafe_fieldsTail (d + 1) fs '\n' (indent d ++ ('}' :: rest)) (by decide)
          have hmem : parseMember f1 ([] ++
              (('"' :: (escString k.toList ++ '"' :: ':' :: ' ' :: serJson (d + 1) v)) ++
                (serFieldsTail (d + 1) fs ++ '\n' :: (indent d ++ ('}' :: rest))))) =
              some ((k, v), serFieldsTail (d + 1) fs ++ '\n' :: (indent d ++ ('}' :: rest))) :=
            roundtrip_member k v f1 (d + 1) [] _ rfl hTS (by omega)
          have hor : parseObjRest f1 (serFieldsTail (d + 1) fs ++
              '\n' :: (indent d ++ ('}' :: rest))) = some (fs, rest) :=
            roundtrip_objRest fs f1 (d + 1) d rest hrest (by omega)
          have hOF : parseObjFields (f1 + 1) ('\n' :: (indent (d + 1) ++
              (('"' :: (escString k.toList ++ '"' :: ':' :: ' ' :: serJson (d + 1) v)) ++
                (serFieldsTail (d + 1) fs ++ '\n' :: (indent d ++ ('}' :: rest)))))) =
              some (JsonObj.cons k v fs, rest) := by
            rw [parseObjFields.eq_def]
            simp only []
            rw [skipWs_nl_indent]
            rw [List.cons_append, skipWs_not_ws (by decide)]
            rw [List.nil_append] at hmem
            simp at hmem
            simp [hmem, hor]
          simp at hOF
          simp [hOF]

theorem roundtrip_arrRest (tl : JsonArr) (fuel d d2 : Nat) (rest : List Char)
    (hrest : restSafe rest = true) (hsz : sizeA tl ≤ fuel) :
    parseArrRest fuel (serItemsTail d tl ++ ('\n' :: (indent d2 ++ (']' :: rest)))) =
      some (tl, rest) := by
  cases tl with
  | nil =>
    simp only [sizeA] at hsz
    cases fuel with
    | zero => omega
    | succ f =>
      rw [parseArrRest.eq_def]
      simp only []
      have h1 : serItemsTail d JsonArr.nil ++ ('\n' :: (indent d2 ++ (']' :: rest))) =
          '\n' :: (indent d2 ++ (']' :: rest)) := rfl
      rw [h1, skipWs_nl_indent, skipWs_not_ws (by decide)]
      simp
  | cons j1 tl2 =>
    simp only [sizeA] at hsz
    have hj1 := sizeJ_pos j1
    have htl2 := sizeA_pos tl2
    cases fuel with
    | zero => omega
    | succ f =>
      rw [parseArrRest.eq_def]
      simp only []
      have h1 : serItemsTail d (JsonArr.cons j1 tl2) ++ ('\n' :: (indent d2 ++ (']' :: rest))) =
          ',' :: (('\n' :: indent d) ++ (serJson d j1 ++ (serItemsTail d tl2 ++
            ('\n' :: (indent d2 ++ (']' :: rest)))))) := by
        show (',' :: '\n' :: (indent d ++ serJson d j1 ++ serItemsTail d tl2)) ++
          ('\n' :: (indent d2 ++ (']' :: rest))) = _
        simp [List.cons_append, List.append_assoc]
      rw [h1, skipWs_not_ws (by decide)]
      have hTS : restSafe (serItemsTail d tl2 ++ '\n' :: (indent d2 ++ (']' :: rest))) = true :=
        restSafe_itemsTail d tl2 '\n' (indent d2 ++ (']' :: rest)) (by decide)
      have hval : parseVal f (('\n' :: indent d) ++ (serJson d j1 ++ (serItemsTail d tl2 ++
          ('\n' :: (indent d2 ++ (']' :: rest)))))) =
          some (j1, serItemsTail d tl2 ++ ('\n' :: (indent d2 ++ (']' :: rest)))) :=
        roundtrip_val j1 f d ('\n' :: indent d) _ (allWs_nl_indent d) hTS (by omega)
      have hra : parseArrRest f (serItemsTail d tl2 ++ ('\n' :: (indent d2 ++ (']' :: rest)))) =
          some (tl2, rest) :=
        roundtrip_arrRest tl2 f d d2 rest hrest (by omega)
      simp at hval
      simp [hval, hra]

theorem roundtrip_member (k : String) (v : Json) (fuel d : Nat) (w T : List Char)
    (hw : allWs w = true) (hT : restSafe T = true) (hsz : sizeJ v < fuel) :
    parseMember fuel (w ++ (('"' :: (escString k.toList ++ '"' :: ':' :: ' ' ::
      serJson d v)) ++ T)) = some ((k, v), T) := by
  cases fuel with
  | zero => omega
  | succ f =>
    rw [parseMember.eq_def]
    simp only []
    rw [skipWs_ws_append hw]
    have h1 : ('"' :: (escString k.toList ++ '"' :: ':' :: ' ' :: serJson d v)) ++ T =
        '"' :: (escString k.toList ++ ('"' :: (':' :: (' ' :: (serJson d v ++ T))))) := by
      simp [List.cons_append, List.append_assoc]
    rw [h1, skipWs_not_ws (by decide)]
    have hps : parseStrChars (escString k.toList ++ ('"' :: (':' :: (' ' ::
        (serJson d v ++ T))))) = some (k.toList, ':' :: (' ' :: (serJson d v ++ T))) :=
      parseStr_escString k.toList _
    have hval : parseVal f (' ' :: (serJson d v ++ T)) = some (v, T) := by
      have h2 : ' ' :: (serJson d v ++ T) = [' '] ++ (serJson d v ++ T) := rfl
      rw [h2]
      exact roundtrip_val v f d [' '] T (by decide) hT (by omega)
    have hsk : skipWs (':' :: (' ' :: (serJson d v ++ T))) =
        ':' :: (' ' :: (serJson d v ++ T)) := skipWs_not_ws (by decide) _
    simp at hps
    simp [hps, hsk, hval, stringMk_toList]

theorem roundtrip_objRest (fs : JsonObj) (fuel d d2 : Nat) (rest : List Char)
    (hrest : restSafe rest = true) (hsz : sizeO fs ≤ fuel) :
    parseObjRest fuel (serFieldsTail d fs ++ ('\n' :: (indent d2 ++ ('}' :: rest)))) =
      some (fs, rest) := by
  cases fs with
  | nil =>
    simp only [sizeO] at hsz
    cases fuel with
    | zero => omega
    | succ f =>
      rw [parseObjRest.eq_def]
      simp only []
      have h1 : serFieldsTail d JsonObj.nil ++ ('\n' :: (indent d2 ++ ('}' :: rest))) =
          '\n' :: (indent d2 ++ ('}' :: rest)) := rfl
      rw [h1, skipWs_nl_indent, skipWs_not_ws (by decide)]
      simp
  | cons k v fs2 =>
    simp only [sizeO] at hsz
    have hv := sizeJ_pos v
    have hfs2 := sizeO_pos fs2
    cases fuel with
    | zero => omega
    | succ f =>
      rw [parseObjRest.eq_def]
      simp only []
      have h1 : serFieldsTail d (JsonObj.cons k v fs2) ++
          ('\n' :: (indent d2 ++ ('}' :: rest))) =
          ',' :: (('\n' :: indent d) ++
            ((('"' :: (escString k.toList ++ '"' :: ':' :: ' ' :: serJson d v))) ++
              (serFieldsTail d fs2 ++ ('\n' :: (indent d2 ++ ('}' :: rest)))))) := by
        show (',' :: '\n' :: (indent d ++
          ('"' :: (escString k.toList ++ '"' :: ':' :: ' ' :: serJson d v)) ++
          serFieldsTail d fs2)) ++ ('\n' :: (indent d2 ++ ('}' :: rest))) = _
        simp [List.cons_append, List.append_assoc]
      rw [h1, skipWs_not_ws (by decide)]
      have hTS : restSafe (serFieldsTail d fs2 ++ '\n' :: (indent d2 ++ ('}' :: rest))) = true :=
        restSafe_fieldsTail d fs2 '\n' (indent d2 ++ ('}' :: rest)) (by decide)
      have hmem : parseMember f (('\n' :: indent d) ++
          ((('"' :: (escString k.toList ++ '"' :: ':' :: ' ' :: serJson d v))) ++
            (serFieldsTail d fs2 ++ ('\n' :: (indent d2 ++ ('}' :: rest)))))) =
          some ((k, v), serFieldsTail d fs2 ++ ('\n' :: (indent d2 ++ ('}' :: rest)))) :=
        roundtrip_member k v f d ('\n' :: indent d) _ (allWs_nl_indent d) hTS (by omega)
      have hor : parseObjRest f (serFieldsTail d fs2 ++
          ('\n' :: (indent d2 ++ ('}' :: rest)))) = some (fs2, rest) :=
        roundtrip_objRest fs2 f d d2 rest hrest (by omega)
      simp at hmem
      simp [hmem, hor]

end

theorem serInt_length_pos (n : Int) : 1 ≤ (serInt n).length := by
  unfold serInt
  by_cases hneg : n < 0
  · rw [if_pos hneg]; simp
  · rw [if_neg hneg]
    rcases hser : serNat n.natAbs with _ | ⟨c, l⟩
    · exact absurd hser (serNat_ne_nil _)
    · simp

mutual

theorem sizeLe_val (d : Nat) (j : Json) : sizeJ j ≤ (serJson d j).length := by
  cases j with
  | null => simp [sizeJ, serJson]
  | bool b => cases b <;> simp [sizeJ, serJson]
  | num n =>
    have := serInt_length_pos n
    simp only [sizeJ, serJson]
    omega
  | str s => simp [sizeJ, serJson]
  | arr a =>
    cases a with
    | nil => simp [sizeJ, sizeA, serJson]
    | cons j1 tl =>
      have h1 := sizeLe_val (d + 1) j1
      have h2 := sizeLe_items (d + 1) tl
      simp only [sizeJ, sizeA, serJson, List.length_cons, List.length_append]
      simp
      omega
  | obj o =>
    cases o with
    | nil => simp [sizeJ, sizeO, serJson]
    | cons k v fs =>
      have h1 := sizeLe_val (d + 1) v
      have h2 := sizeLe_fields (d + 1) fs
      simp only [sizeJ, sizeO, serJson, List.length_cons, List.length_append]
      simp
      omega

theorem sizeLe_items (d : Nat) (tl : JsonArr) : sizeA tl ≤ (serItemsTail d tl).length + 2 := by
  cases tl with
  | nil => simp [sizeA, serItemsTail]
  | cons j1 tl2 =>
    have h1 := sizeLe_val d j1
    have h2 := sizeLe_items d tl2
    simp only [sizeA, serItemsTail, List.length_cons, List.length_append]
    omega

theorem sizeLe_fields (d : Nat) (fs : JsonObj) : sizeO fs ≤ (serFieldsTail d fs).length + 2 := by
  cases fs with
  | nil => simp [sizeO, serFieldsTail]
  | cons k v fs2 =>
    have h1 := sizeLe_val d v
    have h2 := sizeLe_fields d fs2
    simp only [sizeO, serFieldsTail, List.length_cons, List.length_append]
    omega

end

theorem jsonParse_serJson (j : Json) : jsonParse (serJson 0 j) = some j := by
  unfold jsonParse
  have hlen : sizeJ j ≤ (serJson 0 j).length + 1 := by
    have := sizeLe_val 0 j
    omega
  have h := roundtrip_val j ((serJson 0 j).length + 1) 0 [] [] rfl rfl hlen
  rw [List.nil_append, List.append_nil] at h
  rw [h]
  rfl

end gojson

namespace piddle

theorem decode_encode_descriptor (D : distribution.Descriptor) :
    decodeDescriptor (encodeDescriptor D) = Except.ok D := by
  rcases D with ⟨mt, sz, dg⟩
  by_cases h1 : mt = "" <;> by_cases h2 : sz = 0 <;> by_cases h3 : dg = "" <;>
    simp [encodeDescriptor, decodeDescriptor, gojson.objOfList, gojson.jsonField,
      gojson.decodeStrField, gojson.decodeIntField, gojson.decodeString, gojson.decodeInt,
      h1, h2, h3]

theorem decode_encode_descriptorArr (Ls : List distribution.Descriptor) :
    decodeDescriptorArr (gojson.arrOfList (Ls.map encodeDescriptor)) = Except.ok Ls := by
  induction Ls with
  | nil => rfl
  | cons D tl ih =>
    simp only [List.map_cons, gojson.arrOfList, decodeDescriptorArr,
      decode_encode_descriptor, ih]

theorem decode_encode_manifest (M : Manifest) :
    decodeManifest (encodeManifest M) = Except.ok M := by
  rcases M with ⟨⟨sv, mt⟩, cfg, lys⟩
  by_cases h1 : mt = "" <;>
    simp [encodeManifest, decodeManifest, gojson.objOfList, gojson.jsonField,
      gojson.decodeStrField, gojson.decodeIntField, gojson.decodeString, gojson.decodeInt,
      decodeConfigField, decodeLayersField, decode_encode_descriptor,
      decode_encode_descriptorArr, h1]

theorem jsonUnmarshal_marshalIndent (M : Manifest) :
    jsonUnmarshal (jsonMarshalIndent M) = Except.ok M := by
  unfold jsonUnmarshal jsonMarshalIndent
  rw [gojson.jsonParse_serJson]
  exact decode_encode_manifest M

theorem unmarshalJSON_roundtrip (M : Manifest) (hmt : M.MediaType = MediaTypeImageIndex) :
    DeserializedManifest.UnmarshalJSON newDeserializedManifest (jsonMarshalIndent M) =
      ({ toManifest := M, canonical := jsonMarshalIndent M }, none) := by
  unfold DeserializedManifest.UnmarshalJSON
  rw [jsonUnmarshal_marshalIndent]
  have hne : ¬(M.MediaType ≠ MediaTypeImageIndex) := by
    rw [hmt]
    simp
  simp [hne, newDeserializedManifest]

theorem schema2Func_roundtrip (hash : List Char → String) (M : Manifest)
    (hmt : M.MediaType = MediaTypeImageIndex) :
    schema2Func hash (jsonMarshalIndent M) = Except.ok
      ({ toManifest := M, canonical := jsonMarshalIndent M },
       { Digest := hash (jsonMarshalIndent M), Size := ((jsonMarshalIndent M).length : Int),
         MediaType := MediaTypeImageIndex }) := by
  unfold schema2Func
  rw [unmarshalJSON_roundtrip M hmt]

end piddle

/-- C1: for every manifest whose media-type field is the image-index constant,
the pipeline `FromStruct`, then `Payload`, then `UnmarshalManifest` on the
returned media type and bytes succeeds (the encoding step never fails) and
yields a manifest whose `References` equal the original's and whose
`Payload` bytes are byte for byte the ones `FromStruct` produced. -/
theorem c1_fromstruct_roundtrip (M : piddle.Manifest) (hash : List Char → String)
    (hmt : M.MediaType = piddle.MediaTypeImageIndex) :
    piddle.FromStruct M =
      ({ toManifest := M, canonical := piddle.jsonMarshalIndent M }, none) ∧
    piddle.DeserializedManifest.Payload
        { toManifest := M, canonical := piddle.jsonMarshalIndent M } =
      (M.MediaType, piddle.jsonMarshalIndent M, none) ∧
    ∃ (m2 : piddle.DeserializedManifest) (desc : distribution.Descriptor),
      distribution.UnmarshalManifest (piddle.initRegistry hash) M.MediaType
        (piddle.jsonMarshalIndent M) = Except.ok (m2, desc) ∧
      piddle.Manifest.References m2.toManifest = piddle.Manifest.References M ∧
      (piddle.DeserializedManifest.Payload m2).2.1 = piddle.jsonMarshalIndent M := by
  refine ⟨rfl, rfl, ?_⟩
  refine ⟨{ toManifest := M, canonical := piddle.jsonMarshalIndent M },
    { Digest := hash (piddle.jsonMarshalIndent M),
      Size := ((piddle.jsonMarshalIndent M).length : Int),
      MediaType := piddle.MediaTypeImageIndex }, ?_, rfl, rfl⟩
  rw [hmt]
  rw [distribution.unmarshal_dispatch _ _ _ piddle.MediaTypeImageIndex (by decide) (by decide)]
  have hl : distribution.lookupMap (piddle.initRegistry hash) piddle.MediaTypeImageIndex =
      some (piddle.schema2Func hash) := rfl
  rw [hl]
  exact piddle.schema2Func_roundtrip hash M hmt

/-- Witness for C1 at the concrete sample manifest. -/
theorem c1_fromstruct_roundtrip_witness :
    sampleManifest.MediaType = piddle.MediaTypeImageIndex ∧
    (piddle.FromStruct sampleManifest =
       ({ toManifest := sampleManifest, canonical := piddle.jsonMarshalIndent sampleManifest },
        none) ∧
     piddle.DeserializedManifest.Payload
         { toManifest := sampleManifest,
           canonical := piddle.jsonMarshalIndent sampleManifest } =
       (sampleManifest.MediaType, piddle.jsonMarshalIndent sampleManifest, none) ∧
     ∃ (m2 : piddle.DeserializedManifest) (desc : distribution.Descriptor),
       distribution.UnmarshalManifest (piddle.initRegistry sampleHash) sampleManifest.MediaType
         (piddle.jsonMarshalIndent sampleManifest) = Except.ok (m2, desc) ∧
       piddle.Manifest.References m2.toManifest = piddle.Manifest.References sampleManifest ∧
       (piddle.DeserializedManifest.Payload m2).2.1 = piddle.jsonMarshalIndent sampleManifest) :=
  ⟨rfl, c1_fromstruct_roundtrip sampleManifest sampleHash rfl⟩
